import Mathlib

/-!
Verification development for `audalign/fingerprint.py`.

We shallowly embed the fingerprinting pipeline:
  * `get_2D_peaks`  (peak extraction from a magnitude grid), and
  * `generate_hashes` (combinatorial triple hashing of the peak list),
together with the SHA-1 digest (FIPS 180) that the hash generator uses,
and prove the specification claims about them.

Modelling conventions:
  * Python integers are `Int` (or `Nat` for indices); grid amplitudes are
    modelled as `Rat` (the claims only compare amplitudes and take maxima,
    which rationals model faithfully).
  * The float division `(t2-t1)/(t3-t1)` followed by Python's fixed-point
    formatting to 8 decimals is modelled as exact rational rounding
    (half-to-even).  Every ratio a claim evaluates concretely is exactly
    representable (e.g. 0.5), where the two agree, and the invariance
    claims only ever compare syntactically identical quotients.
  * A Python `dict` (insertion ordered, values appended in discovery
    order) is an association list `List (String × List Int)`.
  * The one runtime error reachable in `generate_hashes`
    (`ZeroDivisionError` when `t3 - t1 = 0` passes the delta guards,
    possible only when `min_hash_time_delta ≤ 0`) is modelled by an
    `Option` result: `none` means the Python call raises.
-/

namespace Audalign

/-! ### Module constants (fingerprint.py lines 36-68) -/

def DEFAULT_FAN_VALUE : Int := 15

def PEAK_NEIGHBORHOOD_SIZE : Nat := 20

def MIN_HASH_TIME_DELTA : Int := 10

def MAX_HASH_TIME_DELTA : Int := 200

def FINGERPRINT_REDUCTION : Nat := 20

/-! ### SHA-1 (FIPS 180), words as `Nat` reduced mod 2^32 -/

def w32 (n : Nat) : Nat := n % 4294967296

def rotl (b n : Nat) : Nat := w32 (n <<< b) ||| (n >>> (32 - b))

/-- The lowercase hexadecimal digit for `n < 16`, via its ASCII code
(48 is the code of the zero digit, 87 + 10 that of the letter a). -/
def hexDigit (n : Nat) : Char :=
  if n < 10 then Char.ofNat (48 + n) else Char.ofNat (87 + n)

/-- The sixteen lowercase hexadecimal digit characters. -/
def hexChars : List Char := (List.range 16).map hexDigit

def toHex8 (w : Nat) : List Char :=
  (List.range 8).map (fun i => hexDigit ((w >>> (4 * (7 - i))) % 16))

/-- The 8-byte big-endian encoding of the message bit length. -/
def beBytes8 (n : Nat) : List Nat :=
  (List.range 8).map (fun i => (n >>> (8 * (7 - i))) % 256)

/-- Append the 0x80 byte, zero padding to 56 mod 64, and the bit length. -/
def sha1Pad (msg : List Nat) : List Nat :=
  msg ++ [128] ++ List.replicate ((119 - msg.length % 64) % 64) 0 ++ beBytes8 (8 * msg.length)

/-- Group bytes into big-endian 32-bit words. -/
def toWords : List Nat → List Nat
  | b0 :: b1 :: b2 :: b3 :: rest => (((b0 * 256 + b1) * 256 + b2) * 256 + b3) :: toWords rest
  | _ => []

/-- Split a word list into 16-word blocks; the fuel argument (an upper
bound on the number of blocks, initialised to the list length) makes the
recursion structural. -/
def chunks16Go : Nat → List Nat → List (List Nat)
  | _, [] => []
  | 0, _ :: _ => []
  | fuel + 1, w :: ws => ((w :: ws).take 16) :: chunks16Go fuel ((w :: ws).drop 16)

/-- Split a word list into 16-word blocks. -/
def chunks16 (l : List Nat) : List (List Nat) := chunks16Go l.length l

/-- Extend a 16-word block to the 80-word message schedule. -/
def w80 (block : List Nat) : List Nat :=
  (List.range 64).foldl
    (fun acc _ =>
      acc ++ [rotl 1 (((acc.getD (acc.length - 3) 0) ^^^ (acc.getD (acc.length - 8) 0)) ^^^
        ((acc.getD (acc.length - 14) 0) ^^^ (acc.getD (acc.length - 16) 0)))])
    block

abbrev Sha1State := Nat × Nat × Nat × Nat × Nat

def sha1F (t b c d : Nat) : Nat :=
  if t < 20 then (b &&& c) ||| ((b ^^^ 4294967295) &&& d)
  else if t < 40 then (b ^^^ c) ^^^ d
  else if t < 60 then ((b &&& c) ||| (b &&& d)) ||| (c &&& d)
  else (b ^^^ c) ^^^ d

def sha1K (t : Nat) : Nat :=
  if t < 20 then 1518500249
  else if t < 40 then 1859775393
  else if t < 60 then 2400959708
  else 3395469782

def sha1Round (ws : List Nat) (st : Sha1State) (t : Nat) : Sha1State :=
  let (a, b, c, d, e) := st
  (w32 (rotl 5 a + sha1F t b c d + e + sha1K t + ws.getD t 0), a, rotl 30 b, c, d)

def sha1Block (h : Sha1State) (block : List Nat) : Sha1State :=
  let (a, b, c, d, e) := (List.range 80).foldl (sha1Round (w80 block)) h
  (w32 (h.1 + a), w32 (h.2.1 + b), w32 (h.2.2.1 + c),
    w32 (h.2.2.2.1 + d), w32 (h.2.2.2.2 + e))

def sha1Init : Sha1State := (1732584193, 4023233417, 2562383102, 271733878, 3285377520)

def sha1Digest (msg : List Nat) : Sha1State :=
  (chunks16 (toWords (sha1Pad msg))).foldl sha1Block sha1Init

/-- Byte content of a string; the feature strings hashed by the code are
pure ASCII, where this agrees with Python's `encode("utf-8")`. -/
def strBytes (s : String) : List Nat := s.data.map Char.toNat

/-- The 40-character hexadecimal SHA-1 digest (`hexdigest()` in Python). -/
def sha1HexChars (s : String) : List Char :=
  toHex8 (sha1Digest (strBytes s)).1 ++ toHex8 (sha1Digest (strBytes s)).2.1 ++
    toHex8 (sha1Digest (strBytes s)).2.2.1 ++ toHex8 (sha1Digest (strBytes s)).2.2.2.1 ++
    toHex8 (sha1Digest (strBytes s)).2.2.2.2

def sha1Hex (s : String) : String := String.mk (sha1HexChars s)

/-! ### Python fixed-point formatting of the time ratio -/

/-- Left-pad a digit string with zeros to width 8. -/
def pad8 (s : String) : String := String.mk (List.replicate (8 - s.length) '0') ++ s

/-- Python's formatting of the quotient `num/den` to 8 fixed decimals.
The source divides to a binary64 float and formats it; we model this as
exact rational rounding, half to even, which agrees whenever the quotient
is exactly representable (all concretely evaluated ratios are).  A zero
divisor cannot reach this function: the caller models Python's
`ZeroDivisionError` by returning `none` first. -/
def fmt8 (num den : Int) : String :=
  if den = 0 then "NaN"
  else
    let neg : Bool := if num = 0 then decide (den < 0) else decide ((num < 0) ≠ (den < 0))
    let n0 := num.natAbs * 100000000
    let d0 := den.natAbs
    let q := n0 / d0
    let r := n0 % d0
    let rounded := if d0 < 2 * r then q + 1 else if 2 * r < d0 then q
      else if q % 2 = 0 then q else q + 1
    (if neg then "-" else "") ++ toString (rounded / 100000000) ++ "." ++
      pad8 (toString (rounded % 100000000))

/-- The feature string hashed for a triple (fingerprint.py line 205). -/
def featureString (f12 f23 num den : Int) : String :=
  toString f12 ++ "|" ++ toString f23 ++ "|" ++ fmt8 num den

/-- The stored key: the first `FINGERPRINT_REDUCTION` characters of the
hexadecimal SHA-1 digest of the feature string (line 202-208). -/
def hashKey (f12 f23 num den : Int) : String :=
  String.mk ((sha1HexChars (featureString f12 f23 num den)).take FINGERPRINT_REDUCTION)

/-! ### generate_hashes (fingerprint.py lines 164-214) -/

/-- A peak as consumed by `generate_hashes`: (frequency index, time index). -/
abbrev Peak := Int × Int

/-- The returned dict, insertion ordered, keys unique. -/
abbrev FingerMap := List (String × List Int)

/-- Model of `hash_dict[h] = [t1]` / `hash_dict[h] += [t1]` on an
insertion-ordered dict (lines 209-212). -/
def insertHash : FingerMap → String → Int → FingerMap
  | [], h, t => [(h, [t])]
  | (k, v) :: rest, h, t =>
    if k = h then (k, v ++ [t]) :: rest else (k, v) :: insertHash rest h t

/-- Stable insertion of a peak into a time-sorted list: the new peak goes
before the first element whose time is not smaller, so that an earlier
list position wins ties, as in Python's stable `sorted`. -/
def insertByTime (p : Peak) : List Peak → List Peak
  | [] => [p]
  | q :: rest => if q.2 < p.2 then q :: insertByTime p rest else p :: q :: rest

/-- Model of `sorted(peaks, key=lambda x: x[1])` (line 173): Python's sort
is stable, and a stable sort by a key is extensionally unique, so the
stable insertion sort below computes the same list. -/
def sortByTime : List Peak → List Peak
  | [] => []
  | p :: ps => insertByTime p (sortByTime ps)

/-- `range(1, fan_value - 1)` (line 179). -/
def jRange (fan : Int) : List Nat := (List.range (fan - 2).toNat).map (· + 1)

/-- `range(j + 1, fan_value)` (line 183). -/
def kRange (j : Nat) (fan : Int) : List Nat :=
  (List.range (fan - ((j : Int) + 1)).toNat).map (· + (j + 1))

/-- The index triples `(i, j, k)` visited with both accesses in range,
in loop order (lines 176-184): the `k` loop only runs under
`i + j < len(peaks)` and each body under `i + k < len(peaks)`. -/
def candidateTriples (len : Nat) (fan : Int) : List (Nat × Nat × Nat) :=
  (List.range len).flatMap (fun i =>
    ((jRange fan).filter (fun j => i + j < len)).flatMap (fun j =>
      ((kRange j fan).filter (fun k => i + k < len)).map (fun k => (i, j, k))))

/-- The body of the innermost loop (lines 186-212) for one index triple:
apply both delta-window guards, then hash and record, `none` modelling the
`ZeroDivisionError` that `(t2-t1)/(t3-t1)` raises when `t3 - t1 = 0`. -/
def hashStep (mn mx : Int) (ps : List Peak) (d : FingerMap) : Nat × Nat × Nat → Option FingerMap
  | (i, j, k) =>
    let p1 := ps.getD i (0, 0)
    let p2 := ps.getD (i + j) (0, 0)
    let p3 := ps.getD (i + k) (0, 0)
    if mn ≤ p3.2 - p1.2 ∧ p3.2 - p1.2 ≤ mx then
      if mn ≤ p2.2 - p1.2 ∧ p2.2 - p1.2 ≤ mx then
        if p3.2 - p1.2 = 0 then none
        else some (insertHash d (hashKey (p1.1 - p2.1) (p2.1 - p3.1)
          (p2.2 - p1.2) (p3.2 - p1.2)) p1.2)
      else some d
    else some d

def processTriples (mn mx : Int) (ps : List Peak) :
    List (Nat × Nat × Nat) → FingerMap → Option FingerMap
  | [], d => some d
  | c :: cs, d =>
    match hashStep mn mx ps d c with
    | none => none
    | some d2 => processTriples mn mx ps cs d2

/-- `generate_hashes(peaks, fan_value, min_hash_time_delta,
max_hash_time_delta, peak_sort)` (lines 164-214); `none` models an
uncaught `ZeroDivisionError`. -/
def generate_hashes (peaks : List Peak) (fan mn mx : Int) (peak_sort : Bool) :
    Option FingerMap :=
  let ps := if peak_sort then sortByTime peaks else peaks
  processTriples mn mx ps (candidateTriples ps.length fan) []

/-! ### get_2D_peaks (fingerprint.py lines 120-161) -/

/-- The log-amplitude magnitude grid `arr2D`: `rows` frequency bins by
`cols` time frames; amplitudes are modelled as rationals (the peak
extractor only compares them and takes maxima). -/
structure Grid where
  rows : Nat
  cols : Nat
  val : Nat → Nat → Rat

/-- Boundary handling of `scipy.ndimage.maximum_filter` in its default
mode: the array is extended by tiled reflection about the edges. -/
def reflectIdx (n : Nat) (i : Int) : Nat :=
  if n = 0 then 0
  else if (i.emod (2 * n)).toNat < n then (i.emod (2 * n)).toNat
  else 2 * n - 1 - (i.emod (2 * n)).toNat

/-- The structuring neighborhood: `generate_binary_structure(2, 1)`
iterated `PEAK_NEIGHBORHOOD_SIZE` times, i.e. the diamond of offsets with
L1 norm at most `PEAK_NEIGHBORHOOD_SIZE` (lines 122-123). -/
def nbOffsets : List (Int × Int) :=
  ((List.range (2 * PEAK_NEIGHBORHOOD_SIZE + 1)).flatMap (fun a =>
    (List.range (2 * PEAK_NEIGHBORHOOD_SIZE + 1)).map (fun b =>
      ((a : Int) - (PEAK_NEIGHBORHOOD_SIZE : Int),
        (b : Int) - (PEAK_NEIGHBORHOOD_SIZE : Int))))).filter
    (fun o => o.1.natAbs + o.2.natAbs ≤ PEAK_NEIGHBORHOOD_SIZE)

/-- The neighborhood maximum computed by `maximum_filter` at one cell.
The fold is seeded with the centre value, which the footprint contains
anyway (offset (0,0)), so the seed never changes the maximum. -/
def nbMax (g : Grid) (r c : Nat) : Rat :=
  (nbOffsets.map (fun o =>
    g.val (reflectIdx g.rows ((r : Int) + o.1))
      (reflectIdx g.cols ((c : Int) + o.2)))).foldl max (g.val r c)

/-- `local_max = maximum_filter(arr2D, footprint=neighborhood) == arr2D`
(line 126). -/
def localMax (g : Grid) (r c : Nat) : Bool := decide (nbMax g r c = g.val r c)

/-- `background = arr2D == 0` (line 127). -/
def background (g : Grid) (r c : Nat) : Bool := decide (g.val r c = 0)

/-- `binary_erosion(background, structure=neighborhood, border_value=1)`
(lines 128-130): a cell survives when every in-bounds neighborhood cell is
background; out-of-bounds cells count as background (border value 1). -/
def erodedBackground (g : Grid) (r c : Nat) : Bool :=
  nbOffsets.all (fun o =>
    if 0 ≤ (r : Int) + o.1 ∧ (r : Int) + o.1 < (g.rows : Int) ∧
        0 ≤ (c : Int) + o.2 ∧ (c : Int) + o.2 < (g.cols : Int) then
      background g ((r : Int) + o.1).toNat ((c : Int) + o.2).toNat
    else true)

/-- `detected_peaks = local_max ^ eroded_background` (line 133). -/
def detectedPeaks (g : Grid) (r c : Nat) : Bool := localMax g r c != erodedBackground g r c

/-- `np.where(detected_peaks)` in row-major scan order: pairs
(row = frequency bin, column = time frame) of the cells whose mask is set
(line 137). -/
def wherePeaks (g : Grid) : List (Nat × Nat) :=
  (List.range g.rows).flatMap (fun r =>
    ((List.range g.cols).filter (fun c => detectedPeaks g r c)).map (fun c => (r, c)))

/-- `get_2D_peaks(arr2D, amp_min)` (lines 120-161): build the
`zip(i, j, amps)` tuples (time, frequency, amplitude), keep those with
amplitude strictly above `amp_min`, and return `zip(frequency_idx,
time_idx)` - pairs, the amplitude is dropped from the output. -/
def get_2D_peaks (g : Grid) (amp_min : Rat) : List (Nat × Nat) :=
  let peaks := (wherePeaks g).map (fun rc => (rc.2, rc.1, g.val rc.1 rc.2))
  let filtered := peaks.filter (fun x => amp_min < x.2.2)
  filtered.map (fun x => (x.2.1, x.1))

/-! ### Derived notions used by the claims -/

/-- The entry `(hk, t)` originates from a visited index triple that passed
both delta-window guards: there are loop indices `(i, j, k)` whose peaks
satisfy `min_delta ≤ t3 - t1 ≤ max_delta` and
`min_delta ≤ t2 - t1 ≤ max_delta`, whose hash is `hk`, and whose anchor
time is `t`. -/
def originates (ps : List Peak) (fan mn mx : Int) (hk : String) (t : Int) : Prop :=
  ∃ i j k, (i, j, k) ∈ candidateTriples ps.length fan ∧
    mn ≤ (ps.getD (i + k) (0, 0)).2 - (ps.getD i (0, 0)).2 ∧
    (ps.getD (i + k) (0, 0)).2 - (ps.getD i (0, 0)).2 ≤ mx ∧
    mn ≤ (ps.getD (i + j) (0, 0)).2 - (ps.getD i (0, 0)).2 ∧
    (ps.getD (i + j) (0, 0)).2 - (ps.getD i (0, 0)).2 ≤ mx ∧
    hk = hashKey ((ps.getD i (0, 0)).1 - (ps.getD (i + j) (0, 0)).1)
      ((ps.getD (i + j) (0, 0)).1 - (ps.getD (i + k) (0, 0)).1)
      ((ps.getD (i + j) (0, 0)).2 - (ps.getD i (0, 0)).2)
      ((ps.getD (i + k) (0, 0)).2 - (ps.getD i (0, 0)).2) ∧
    t = (ps.getD i (0, 0)).2

/-- A well-formed dict entry: its offset list is nonempty and every
stored offset, together with the entry's key, originates from a visited
triple that passed both delta-window guards. -/
def goodEntry (ps : List Peak) (fan mn mx : Int) (kv : String × List Int) : Prop :=
  kv.2 ≠ [] ∧ ∀ t ∈ kv.2, originates ps fan mn mx kv.1 t

/-- Add the constant `c` to every peak's time index. -/
def shiftTimes (c : Int) (ps : List Peak) : List Peak := ps.map (fun p => (p.1, p.2 + c))

/-- Add the constant `c` to every stored time offset of a Fingerprint Map. -/
def shiftMap (c : Int) (d : FingerMap) : FingerMap :=
  d.map (fun kv => (kv.1, kv.2.map (· + c)))

/-- An all-zero magnitude grid. -/
def zeroGrid (m n : Nat) : Grid := ⟨m, n, fun _ _ => 0⟩

/-- A one-cell grid with amplitude 5. -/
def oneCellGrid : Grid := ⟨1, 1, fun _ _ => 5⟩

/-! ### Helper lemmas -/

set_option maxRecDepth 8000

theorem hashStep_isSome_of_one_le (mn mx : Int) (hmn : 1 ≤ mn) (ps : List Peak)
    (d : FingerMap) (c : Nat × Nat × Nat) : (hashStep mn mx ps d c).isSome := by
  obtain ⟨i, j, k⟩ := c
  simp only [hashStep]
  split
  · split
    · split
      · exfalso; omega
      · rfl
    · rfl
  · rfl

theorem processTriples_isSome_of_one_le (mn mx : Int) (hmn : 1 ≤ mn) (ps : List Peak) :
    ∀ (cs : List (Nat × Nat × Nat)) (d : FingerMap), (processTriples mn mx ps cs d).isSome
  | [], _ => rfl
  | c :: cs, d => by
    simp only [processTriples]
    cases hs : hashStep mn mx ps d c with
    | none =>
      have h := hashStep_isSome_of_one_le mn mx hmn ps d c
      rw [hs] at h
      simp at h
    | some d2 => exact processTriples_isSome_of_one_le mn mx hmn ps cs d2

theorem hashStep_of_empty_window (mn mx : Int) (h : mx < mn) (ps : List Peak)
    (d : FingerMap) (c : Nat × Nat × Nat) : hashStep mn mx ps d c = some d := by
  obtain ⟨i, j, k⟩ := c
  simp only [hashStep]
  split
  · exfalso; omega
  · rfl

theorem processTriples_of_empty_window (mn mx : Int) (h : mx < mn) (ps : List Peak) :
    ∀ (cs : List (Nat × Nat × Nat)) (d : FingerMap), processTriples mn mx ps cs d = some d
  | [], _ => rfl
  | c :: cs, d => by
    simp only [processTriples, hashStep_of_empty_window mn mx h ps d c]
    exact processTriples_of_empty_window mn mx h ps cs d

theorem sha1HexChars_length (s : String) : (sha1HexChars s).length = 40 := by
  simp [sha1HexChars, toHex8]

theorem hashKey_length (f12 f23 num den : Int) :
    (hashKey f12 f23 num den).length = FINGERPRINT_REDUCTION := by
  have h40 := sha1HexChars_length (featureString f12 f23 num den)
  simp [hashKey, String.length, h40, FINGERPRINT_REDUCTION]

theorem mem_hexChars_hexDigit (m : Nat) : hexDigit (m % 16) ∈ hexChars := by
  rw [hexChars]
  exact List.mem_map.mpr ⟨m % 16, List.mem_range.mpr (Nat.mod_lt _ (by omega)), rfl⟩

theorem hashKey_hex (f12 f23 num den : Int) :
    ∀ ch ∈ (hashKey f12 f23 num den).data, ch ∈ hexChars := by
  intro ch hch
  rw [hashKey] at hch
  have hch2 : ch ∈ sha1HexChars (featureString f12 f23 num den) :=
    List.take_subset _ _ hch
  simp only [sha1HexChars, List.mem_append, toHex8, List.mem_map, List.mem_range] at hch2
  rcases hch2 with ((((⟨i, _, rfl⟩ | ⟨i, _, rfl⟩) | ⟨i, _, rfl⟩) | ⟨i, _, rfl⟩) | ⟨i, _, rfl⟩) <;>
    exact mem_hexChars_hexDigit _

theorem candidateTriples_bounds {len : Nat} {fan : Int} {i j k : Nat}
    (h : (i, j, k) ∈ candidateTriples len fan) :
    i < len ∧ 1 ≤ j ∧ j < k ∧ i + j < len ∧ i + k < len := by
  simp only [candidateTriples, List.mem_flatMap, List.mem_map, List.mem_filter,
    List.mem_range, jRange, kRange, decide_eq_true_eq, Prod.mk.injEq] at h
  obtain ⟨i2, hi2, j2, ⟨⟨a, ha, rfl⟩, hj2⟩, k2, ⟨⟨b, hb, rfl⟩, hk2⟩, h1, h2, h3⟩ := h
  omega

theorem getD_mem_of_lt {l : List Peak} {n : Nat} (h : n < l.length) :
    l.getD n (0, 0) ∈ l := by
  rw [List.getD_eq_get _ _ h]
  exact List.get_mem _ _ _

theorem mem_insertByTime {q p : Peak} {l : List Peak} :
    q ∈ insertByTime p l ↔ q = p ∨ q ∈ l := by
  induction l with
  | nil => simp [insertByTime]
  | cons r l ih =>
    simp only [insertByTime]
    split
    · simp only [List.mem_cons, ih]
      tauto
    · simp [List.mem_cons]

theorem mem_sortByTime {q : Peak} {l : List Peak} : q ∈ sortByTime l ↔ q ∈ l := by
  induction l with
  | nil => simp [sortByTime]
  | cons p l ih => simp [sortByTime, mem_insertByTime, ih]

theorem length_shiftTimes (c : Int) (l : List Peak) : (shiftTimes c l).length = l.length :=
  List.length_map _ _

theorem shiftTimes_cons (c : Int) (q : Peak) (l : List Peak) :
    shiftTimes c (q :: l) = (q.1, q.2 + c) :: shiftTimes c l := rfl

theorem insertByTime_shift (c : Int) (p : Peak) (l : List Peak) :
    insertByTime (p.1, p.2 + c) (shiftTimes c l) = shiftTimes c (insertByTime p l) := by
  induction l with
  | nil => rfl
  | cons q l ih =>
    simp only [shiftTimes] at ih ⊢
    by_cases hq : q.2 < p.2 <;>
      simp [insertByTime, hq,
        show (q.2 + c < p.2 + c) ↔ q.2 < p.2 from by omega, ih]

theorem sortByTime_shift (c : Int) (l : List Peak) :
    sortByTime (shiftTimes c l) = shiftTimes c (sortByTime l) := by
  induction l with
  | nil => rfl
  | cons p l ih =>
    rw [shiftTimes_cons]
    simp only [sortByTime]
    rw [ih, insertByTime_shift]

theorem getD_shiftTimes (c : Int) (l : List Peak) (n : Nat) (h : n < l.length) :
    (shiftTimes c l).getD n (0, 0) = ((l.getD n (0, 0)).1, (l.getD n (0, 0)).2 + c) := by
  have h1 : l.get? n = some (l.get ⟨n, h⟩) := List.get?_eq_get h
  show ((shiftTimes c l).get? n).getD (0, 0) =
    (((l.get? n).getD (0, 0)).1, ((l.get? n).getD (0, 0)).2 + c)
  simp only [shiftTimes, List.get?_map, h1]
  rfl

theorem insertHash_shift (c : Int) :
    ∀ (d : FingerMap) (hk : String) (t : Int),
      insertHash (shiftMap c d) hk (t + c) = shiftMap c (insertHash d hk t)
  | [], _, _ => rfl
  | (k, v) :: rest, hk, t => by
    simp only [shiftMap, List.map_cons, insertHash]
    by_cases hk2 : k = hk
    · rw [if_pos hk2, if_pos hk2]
      simp [List.map_append]
    · rw [if_neg hk2, if_neg hk2]
      have hrec := insertHash_shift c rest hk t
      simp only [shiftMap] at hrec
      rw [hrec]
      rfl

theorem hashStep_shift (mn mx c : Int) (ps : List Peak) (d : FingerMap) (i j k : Nat)
    (hi : i < ps.length) (hij : i + j < ps.length) (hik : i + k < ps.length) :
    hashStep mn mx (shiftTimes c ps) (shiftMap c d) (i, j, k) =
      Option.map (shiftMap c) (hashStep mn mx ps d (i, j, k)) := by
  simp only [hashStep, getD_shiftTimes c ps i hi, getD_shiftTimes c ps (i + j) hij,
    getD_shiftTimes c ps (i + k) hik, add_sub_add_right_eq_sub]
  by_cases h1 : mn ≤ (ps.getD (i + k) (0, 0)).2 - (ps.getD i (0, 0)).2 ∧
      (ps.getD (i + k) (0, 0)).2 - (ps.getD i (0, 0)).2 ≤ mx
  · rw [if_pos h1, if_pos h1]
    by_cases h2 : mn ≤ (ps.getD (i + j) (0, 0)).2 - (ps.getD i (0, 0)).2 ∧
        (ps.getD (i + j) (0, 0)).2 - (ps.getD i (0, 0)).2 ≤ mx
    · rw [if_pos h2, if_pos h2]
      by_cases h3 : (ps.getD (i + k) (0, 0)).2 - (ps.getD i (0, 0)).2 = 0
      · rw [if_pos h3, if_pos h3]
        rfl
      · rw [if_neg h3, if_neg h3, insertHash_shift]
        rfl
    · rw [if_neg h2, if_neg h2]
      rfl
  · rw [if_neg h1, if_neg h1]
    rfl

theorem processTriples_shift (mn mx c : Int) (ps : List Peak) :
    ∀ (cs : List (Nat × Nat × Nat)) (d : FingerMap),
      (∀ x ∈ cs, x.1 < ps.length ∧ x.1 + x.2.1 < ps.length ∧ x.1 + x.2.2 < ps.length) →
      processTriples mn mx (shiftTimes c ps) cs (shiftMap c d) =
        Option.map (shiftMap c) (processTriples mn mx ps cs d)
  | [], _, _ => rfl
  | x :: cs, d, hcs => by
    obtain ⟨i, j, k⟩ := x
    obtain ⟨hi, hij, hik⟩ := hcs (i, j, k) (List.mem_cons_self _ _)
    simp only [processTriples, hashStep_shift mn mx c ps d i j k hi hij hik]
    cases hs : hashStep mn mx ps d (i, j, k) with
    | none => simp
    | some dmid =>
      simp only [Option.map_some']
      exact processTriples_shift mn mx c ps cs dmid
        (fun y hy => hcs y (List.mem_cons_of_mem _ hy))

theorem insertHash_goodEntry (ps : List Peak) (fan mn mx : Int) :
    ∀ (d : FingerMap) (hk : String) (t : Int),
      (∀ kv ∈ d, goodEntry ps fan mn mx kv) →
      originates ps fan mn mx hk t →
      ∀ kv ∈ insertHash d hk t, goodEntry ps fan mn mx kv
  | [], hk, t, _, hnew => by
    intro kv hkv
    simp only [insertHash, List.mem_singleton] at hkv
    subst hkv
    refine ⟨by simp, ?_⟩
    intro x hx
    simp only [List.mem_singleton] at hx
    subst hx
    exact hnew
  | (k, v) :: rest, hk, t, hd, hnew => by
    intro kv hkv
    simp only [insertHash] at hkv
    split at hkv
    · rename_i hke
      rcases List.mem_cons.mp hkv with rfl | hkv2
      · refine ⟨by simp, ?_⟩
        intro x hx
        rcases List.mem_append.mp hx with hx2 | hx2
        · exact (hd (k, v) (List.mem_cons_self _ _)).2 x hx2
        · simp only [List.mem_singleton] at hx2
          subst hx2
          subst hke
          exact hnew
      · exact hd kv (List.mem_cons_of_mem _ hkv2)
    · rcases List.mem_cons.mp hkv with rfl | hkv2
      · exact hd (k, v) (List.mem_cons_self _ _)
      · exact insertHash_goodEntry ps fan mn mx rest hk t
          (fun kv2 h2 => hd kv2 (List.mem_cons_of_mem _ h2)) hnew kv hkv2

theorem hashStep_goodEntry (ps : List Peak) (fan mn mx : Int) (d d2 : FingerMap)
    (c : Nat × Nat × Nat) (hc : c ∈ candidateTriples ps.length fan)
    (hd : ∀ kv ∈ d, goodEntry ps fan mn mx kv)
    (hs : hashStep mn mx ps d c = some d2) :
    ∀ kv ∈ d2, goodEntry ps fan mn mx kv := by
  obtain ⟨i, j, k⟩ := c
  simp only [hashStep] at hs
  split at hs
  · split at hs
    · split at hs
      · exact absurd hs (by simp)
      · rename_i h13 h12 hz
        injection hs with hs2
        subst hs2
        exact insertHash_goodEntry ps fan mn mx d _ _ hd
          ⟨i, j, k, hc, h13.1, h13.2, h12.1, h12.2, rfl, rfl⟩
    · injection hs with hs2
      subst hs2
      exact hd
  · injection hs with hs2
    subst hs2
    exact hd

theorem processTriples_goodEntry (ps : List Peak) (fan mn mx : Int) :
    ∀ (cs : List (Nat × Nat × Nat)) (d d2 : FingerMap),
      (∀ c ∈ cs, c ∈ candidateTriples ps.length fan) →
      (∀ kv ∈ d, goodEntry ps fan mn mx kv) →
      processTriples mn mx ps cs d = some d2 →
      ∀ kv ∈ d2, goodEntry ps fan mn mx kv
  | [], d, d2, _, hd, heq => by
    injection heq with heq2
    subst heq2
    exact hd
  | c :: cs, d, d2, hcs, hd, heq => by
    simp only [processTriples] at heq
    cases hs : hashStep mn mx ps d c with
    | none =>
      rw [hs] at heq
      exact absurd heq (by simp)
    | some dmid =>
      rw [hs] at heq
      exact processTriples_goodEntry ps fan mn mx cs dmid d2
        (fun x hx => hcs x (List.mem_cons_of_mem _ hx))
        (hashStep_goodEntry ps fan mn mx d dmid c (hcs c (List.mem_cons_self _ _)) hd hs)
        heq

theorem foldl_max_eq_self (x : Rat) : ∀ l : List Rat, (∀ y ∈ l, y = x) → l.foldl max x = x
  | [], _ => rfl
  | y :: l, h => by
    have hy : y = x := h y (List.mem_cons_self _ _)
    rw [List.foldl_cons, hy, max_self]
    exact foldl_max_eq_self x l (fun z hz => h z (List.mem_cons_of_mem _ hz))

theorem reflectIdx_lt {n : Nat} (hn : 0 < n) (i : Int) : reflectIdx n i < n := by
  rw [reflectIdx, if_neg (Nat.pos_iff_ne_zero.mp hn)]
  have he1 : 0 ≤ i.emod ((2 * n : Nat) : Int) := Int.emod_nonneg i (by omega)
  have he2 : i.emod ((2 * n : Nat) : Int) < ((2 * n : Nat) : Int) :=
    Int.emod_lt_of_pos i (by omega)
  split <;> omega

theorem detectedPeaks_zero (g : Grid) (hz : ∀ r < g.rows, ∀ c < g.cols, g.val r c = 0)
    (r c : Nat) (hr : r < g.rows) (hc : c < g.cols) : detectedPeaks g r c = false := by
  have hval : g.val r c = 0 := hz r hr c hc
  have hlm : localMax g r c = true := by
    rw [localMax]
    apply decide_eq_true
    rw [nbMax, hval]
    apply foldl_max_eq_self
    intro y hy
    simp only [List.mem_map] at hy
    obtain ⟨o, ho, rfl⟩ := hy
    exact hz _ (reflectIdx_lt (by omega) _) _ (reflectIdx_lt (by omega) _)
  have heb : erodedBackground g r c = true := by
    rw [erodedBackground, List.all_eq_true]
    intro o ho
    split
    · rename_i hb
      rw [background]
      apply decide_eq_true
      exact hz _ (by omega) _ (by omega)
    · rfl
  rw [detectedPeaks, hlm, heb]
  rfl

theorem nbOffsets_zero_mem : ((0 : Int), (0 : Int)) ∈ nbOffsets := by
  rw [nbOffsets, List.mem_filter]
  refine ⟨?_, by decide⟩
  simp only [List.mem_flatMap, List.mem_map, List.mem_range]
  exact ⟨PEAK_NEIGHBORHOOD_SIZE, by decide, PEAK_NEIGHBORHOOD_SIZE, by decide, by decide⟩

theorem detectedPeaks_oneCellGrid : detectedPeaks oneCellGrid 0 0 = true := by
  have hlm : localMax oneCellGrid 0 0 = true := by
    rw [localMax]
    apply decide_eq_true
    rw [nbMax]
    apply foldl_max_eq_self
    intro y hy
    simp only [List.mem_map] at hy
    obtain ⟨o, ho, rfl⟩ := hy
    rfl
  have heb : erodedBackground oneCellGrid 0 0 = false := by
    rw [erodedBackground]
    exact List.all_eq_false.mpr ⟨(0, 0), nbOffsets_zero_mem, by decide⟩
  rw [detectedPeaks, hlm, heb]
  rfl

theorem get_2D_peaks_oneCellGrid : get_2D_peaks oneCellGrid 0 = [(0, 0)] := by
  have hw : wherePeaks oneCellGrid = [(0, 0)] := by
    show ([0] : List Nat).flatMap (fun r =>
      (([0] : List Nat).filter (fun c => detectedPeaks oneCellGrid r c)).map
        (fun c => (r, c))) = [(0, 0)]
    simp [detectedPeaks_oneCellGrid]
  show ((wherePeaks oneCellGrid).map
        (fun rc => (rc.2, rc.1, oneCellGrid.val rc.1 rc.2))
      |>.filter (fun x => (0 : Rat) < x.2.2)
      |>.map (fun x => (x.2.1, x.1))) = [(0, 0)]
  rw [hw]
  decide

theorem wherePeaks_mem {g : Grid} {rc : Nat × Nat} (h : rc ∈ wherePeaks g) :
    rc.1 < g.rows ∧ rc.2 < g.cols ∧ detectedPeaks g rc.1 rc.2 = true := by
  simp only [wherePeaks, List.mem_flatMap, List.mem_map, List.mem_filter, List.mem_range] at h
  obtain ⟨r, hr, c, ⟨hc, hd⟩, rfl⟩ := h
  exact ⟨hr, hc, hd⟩

theorem generate_hashes_goodEntry (peaks : List Peak) (fan mn mx : Int) (s : Bool)
    (d : FingerMap) (h : generate_hashes peaks fan mn mx s = some d) :
    ∀ kv ∈ d, goodEntry (if s then sortByTime peaks else peaks) fan mn mx kv := by
  simp only [generate_hashes] at h
  exact processTriples_goodEntry _ fan mn mx _ _ _ (fun c hc => hc) (by simp) h

/-! ### Claim theorems -/

/-- C9: the pipeline is deterministic: for fixed inputs and parameters two
invocations of the hash generator (and of the peak extractor) denote the
same pure function value, hence identical Fingerprint Maps with the same
key set and the same offset lists in the same order. -/
theorem pipeline_deterministic (peaks : List Peak) (fan mn mx : Int) (s : Bool)
    (g : Grid) (a : Rat) :
    generate_hashes peaks fan mn mx s = generate_hashes peaks fan mn mx s ∧
      get_2D_peaks g a = get_2D_peaks g a :=
  ⟨rfl, rfl⟩

/-- C2: on peaks (10,0), (8,15), (5,30) with fan_value 15, min_delta 10,
max_delta 200, with sorting on or off, `generate_hashes` returns exactly
one key mapping to [0], and the key is the first 20 hexadecimal characters
of the SHA-1 digest of the feature string "2|3|0.50000000". -/
theorem generate_hashes_three_peak_scenario :
    generate_hashes [(10, 0), (8, 15), (5, 30)] 15 10 200 true =
      some [(String.mk ((sha1HexChars "2|3|0.50000000").take 20), [0])] ∧
    generate_hashes [(10, 0), (8, 15), (5, 30)] 15 10 200 false =
      some [(String.mk ((sha1HexChars "2|3|0.50000000").take 20), [0])] :=
  ⟨rfl, rfl⟩

/-- C10: when `min_hash_time_delta ≥ 1`, the divisor `t3 - t1` of the
ratio is only reached after the guard `min_delta ≤ t3 - t1` has held, so
the division-by-zero branch is unreachable and `generate_hashes` returns a
map for every peak sequence; and with `min_delta = 0` a triple with
`t3 = t1` does pass the guards and reaches the division with a zero
divisor (the call raises, modelled as `none`). -/
theorem generate_hashes_division_safety (peaks : List Peak) (fan mn mx : Int) (s : Bool)
    (hmn : 1 ≤ mn) :
    (generate_hashes peaks fan mn mx s).isSome ∧
      generate_hashes [(1, 0), (2, 0), (3, 0)] 15 0 200 false = none := by
  refine ⟨?_, rfl⟩
  simp only [generate_hashes]
  exact processTriples_isSome_of_one_le mn mx hmn _ _ _

/-- C10 witness: the theorem applied at the concrete three-peak input with
`min_hash_time_delta = 10`. -/
theorem generate_hashes_division_safety_witness :
    (generate_hashes [(10, 0), (8, 15), (5, 30)] 15 10 200 true).isSome ∧
      generate_hashes [(1, 0), (2, 0), (3, 0)] 15 0 200 false = none :=
  generate_hashes_division_safety [(10, 0), (8, 15), (5, 30)] 15 10 200 true (by decide)

/-- C4 counterexample: with `min_hash_time_delta = 200 > max_hash_time_delta
= 10` (an invalid configuration) and a nonempty peak list, the call does
not fail: it returns the empty Fingerprint Map normally, refuting the
claim that such configurations raise a configuration error. -/
theorem generate_hashes_invalid_config_counterexample :
    generate_hashes [(10, 0), (8, 15), (5, 30)] 15 200 10 true = some [] :=
  rfl

/-- C4 (amended): the code performs no configuration validation; with
`min_delta > max_delta` or `fan_value ≤ 0` the generator silently returns
the empty Fingerprint Map instead of raising (and `neighborhood_size` is a
module constant, not a checkable parameter). -/
theorem generate_hashes_invalid_config_returns_empty (peaks : List Peak) (fan mn mx : Int)
    (s : Bool) (h : mx < mn ∨ fan ≤ 0) : generate_hashes peaks fan mn mx s = some [] := by
  rcases h with h | h
  · simp only [generate_hashes]
    exact processTriples_of_empty_window mn mx h _ _ _
  · have hj : jRange fan = [] := by
      rw [jRange, Int.toNat_of_nonpos (by omega), List.range_zero, List.map_nil]
    have hc : ∀ len, candidateTriples len fan = [] := by
      intro len
      simp [candidateTriples, hj]
    simp only [generate_hashes, hc, processTriples]

/-- C4 (amended) witness: the theorem applied with `fan_value = 0`. -/
theorem generate_hashes_invalid_config_returns_empty_witness :
    generate_hashes [(7, 3), (9, 20)] 0 10 200 false = some [] :=
  generate_hashes_invalid_config_returns_empty [(7, 3), (9, 20)] 0 10 200 false
    (Or.inr (by decide))

/-- C1: every hash key and every stored time offset of the returned
Fingerprint Map originates from a visited peak triple whose time deltas
`t3 - t1` and `t2 - t1` both lie within `[min_delta, max_delta]`
inclusive; a triple violating either inclusive bound never contributes a
hash or a stored offset. -/
theorem generate_hashes_delta_window (peaks : List Peak) (fan mn mx : Int) (s : Bool)
    (d : FingerMap) (h : generate_hashes peaks fan mn mx s = some d)
    (hk : String) (ts : List Int) (hmem : (hk, ts) ∈ d) (t : Int) (ht : t ∈ ts) :
    originates (if s then sortByTime peaks else peaks) fan mn mx hk t :=
  (generate_hashes_goodEntry peaks fan mn mx s d h (hk, ts) hmem).2 t ht

/-- C1 witness: the theorem applied at the concrete three-peak scenario,
whose single stored entry originates from the triple at indices (0,1,2). -/
theorem generate_hashes_delta_window_witness :
    originates (sortByTime [(10, 0), (8, 15), (5, 30)]) 15 10 200
      (String.mk ((sha1HexChars "2|3|0.50000000").take 20)) 0 :=
  generate_hashes_delta_window [(10, 0), (8, 15), (5, 30)] 15 10 200 true
    [(String.mk ((sha1HexChars "2|3|0.50000000").take 20), [0])] rfl
    (String.mk ((sha1HexChars "2|3|0.50000000").take 20)) [0] (by decide) 0 (by decide)

/-- C8: every key of the returned Fingerprint Map is a string of exactly
`FINGERPRINT_REDUCTION` = 20 hexadecimal characters (the first 20 hex
characters of the 160-bit SHA-1 digest by construction of `hashKey`), and
when all peak time indices are non-negative, every stored offset is
non-negative. -/
theorem generate_hashes_output_shape (peaks : List Peak) (fan mn mx : Int) (s : Bool)
    (d : FingerMap) (h : generate_hashes peaks fan mn mx s = some d)
    (hk : String) (ts : List Int) (hmem : (hk, ts) ∈ d) :
    hk.length = FINGERPRINT_REDUCTION ∧ (∀ ch ∈ hk.data, ch ∈ hexChars) ∧
      ((∀ p ∈ peaks, 0 ≤ p.2) → ∀ t ∈ ts, 0 ≤ t) := by
  obtain ⟨hne, hall⟩ := generate_hashes_goodEntry peaks fan mn mx s d h (hk, ts) hmem
  obtain ⟨t0, ht0⟩ := List.exists_mem_of_ne_nil _ hne
  obtain ⟨i, j, k, hc, _, _, _, _, hkey, _⟩ := hall t0 ht0
  subst hkey
  refine ⟨hashKey_length _ _ _ _, hashKey_hex _ _ _ _, ?_⟩
  intro hpos t ht
  obtain ⟨i2, j2, k2, hc2, _, _, _, _, _, hteq⟩ := hall t ht
  have hb := candidateTriples_bounds hc2
  have hmem2 := getD_mem_of_lt (l := if s then sortByTime peaks else peaks) hb.1
  have hmem3 : (if s then sortByTime peaks else peaks).getD i2 (0, 0) ∈ peaks := by
    cases s with
    | false => simpa using hmem2
    | true =>
      simp only [if_pos] at hmem2 ⊢
      exact mem_sortByTime.mp hmem2
  rw [hteq]
  exact hpos _ hmem3

/-- C6: shifting every peak's time index by a constant `c` yields the
Fingerprint Map obtained from the unshifted peaks with every stored offset
shifted by `c` (via `shiftMap`, which keeps every key and the order of
entries and offsets unchanged): the hash keys are identical because only
`t2 - t1`, `t3 - t1` and their ratio are hashed. -/
theorem generate_hashes_shift_invariance (peaks : List Peak) (c fan mn mx : Int) (s : Bool) :
    generate_hashes (shiftTimes c peaks) fan mn mx s =
      Option.map (shiftMap c) (generate_hashes peaks fan mn mx s) := by
  have key : ∀ ps : List Peak,
      processTriples mn mx (shiftTimes c ps) (candidateTriples ps.length fan) [] =
        Option.map (shiftMap c) (processTriples mn mx ps (candidateTriples ps.length fan) []) := by
    intro ps
    have hmain := processTriples_shift mn mx c ps (candidateTriples ps.length fan) []
      (fun x hx => by
        obtain ⟨i, j, k⟩ := x
        have hb := candidateTriples_bounds hx
        exact ⟨hb.1, hb.2.2.2.1, hb.2.2.2.2⟩)
    simpa using hmain
  cases s with
  | false =>
    show processTriples mn mx (shiftTimes c peaks)
        (candidateTriples (shiftTimes c peaks).length fan) [] =
      Option.map (shiftMap c) (processTriples mn mx peaks (candidateTriples peaks.length fan) [])
    rw [length_shiftTimes]
    exact key peaks
  | true =>
    show processTriples mn mx (sortByTime (shiftTimes c peaks))
        (candidateTriples (sortByTime (shiftTimes c peaks)).length fan) [] =
      Option.map (shiftMap c) (processTriples mn mx (sortByTime peaks)
        (candidateTriples (sortByTime peaks).length fan) [])
    rw [sortByTime_shift, length_shiftTimes]
    exact key (sortByTime peaks)

/-- C8 witness: the theorem applied at the concrete three-peak scenario. -/
theorem generate_hashes_output_shape_witness :
    (String.mk ((sha1HexChars "2|3|0.50000000").take 20)).length = FINGERPRINT_REDUCTION ∧
      (∀ ch ∈ (String.mk ((sha1HexChars "2|3|0.50000000").take 20)).data, ch ∈ hexChars) ∧
      ((∀ p ∈ [((10 : Int), (0 : Int)), (8, 15), (5, 30)], 0 ≤ p.2) →
        ∀ t ∈ [(0 : Int)], 0 ≤ t) :=
  generate_hashes_output_shape [(10, 0), (8, 15), (5, 30)] 15 10 200 true
    [(String.mk ((sha1HexChars "2|3|0.50000000").take 20), [0])] rfl
    (String.mk ((sha1HexChars "2|3|0.50000000").take 20)) [0] (by decide)

/-- C5: a grid whose in-range cells are all exactly 0 yields an empty
peak sequence for every amplitude floor, including negative ones: the
all-true background mask eroded with border value 1 stays all-true and
the XOR with the all-true local-max mask cancels every cell. -/
theorem get_2D_peaks_zero_grid (g : Grid) (amp_min : Rat)
    (hz : ∀ r < g.rows, ∀ c < g.cols, g.val r c = 0) :
    get_2D_peaks g amp_min = [] := by
  have hw : wherePeaks g = [] := by
    rw [wherePeaks, List.flatMap_eq_nil_iff]
    intro r hr
    rw [List.map_eq_nil, List.filter_eq_nil_iff]
    intro c hc
    simp only [List.mem_range] at hr hc
    simp [detectedPeaks_zero g hz r c hr hc]
  simp [get_2D_peaks, hw]

/-- C5 witness: the theorem applied to the all-zero 3-by-3 grid with a
negative amplitude floor. -/
theorem get_2D_peaks_zero_grid_witness : get_2D_peaks (zeroGrid 3 3) (-1) = [] :=
  get_2D_peaks_zero_grid (zeroGrid 3 3) (-1) (fun r _ c _ => rfl)

/-- C7: peak extraction is antitone in the amplitude floor: for thresholds
`a ≤ a2`, the peaks surviving the stricter floor `a2` are a sublist of
those surviving `a`, so their number never increases. -/
theorem get_2D_peaks_amp_antitone (g : Grid) (a a2 : Rat) (h : a ≤ a2) :
    (get_2D_peaks g a2).length ≤ (get_2D_peaks g a).length := by
  simp only [get_2D_peaks, List.length_map]
  apply List.Sublist.length_le
  apply List.monotone_filter_right
  intro x hx
  simp only [decide_eq_true_eq] at hx ⊢
  exact lt_of_le_of_lt h hx

/-- C7 witness: the theorem applied to the one-cell grid with floors 0 and 1. -/
theorem get_2D_peaks_amp_antitone_witness :
    (get_2D_peaks oneCellGrid 1).length ≤ (get_2D_peaks oneCellGrid 0).length :=
  get_2D_peaks_amp_antitone oneCellGrid 0 1 (by norm_num)

/-- C3 counterexample: on the one-cell grid with amplitude 5 and
`amp_min = 0`, the returned peak sequence is `[(0, 0)]` - each emitted
element is the two-component pair (frequency index, time index); the
amplitude is not part of the output (the source returns
`zip(frequency_idx, time_idx)`), refuting the claim that each element is
a three-component value carrying the amplitude. -/
theorem get_2D_peaks_returns_pairs_counterexample :
    get_2D_peaks oneCellGrid 0 = [(0, 0)] :=
  get_2D_peaks_oneCellGrid

/-- C3 (amended): every element of the returned peak sequence is a pair
(frequency index, time index) of in-range coordinates of a detected peak
cell whose amplitude strictly exceeds `amp_min`; the amplitude itself is
used only for the filter and dropped from the output. -/
theorem get_2D_peaks_pair_shape (g : Grid) (amp_min : Rat) (x : Nat × Nat)
    (hx : x ∈ get_2D_peaks g amp_min) :
    x.1 < g.rows ∧ x.2 < g.cols ∧ amp_min < g.val x.1 x.2 ∧
      detectedPeaks g x.1 x.2 = true := by
  simp only [get_2D_peaks, List.mem_map, List.mem_filter] at hx
  obtain ⟨y, ⟨⟨rc, hrc, rfl⟩, hamp⟩, rfl⟩ := hx
  have hb := wherePeaks_mem hrc
  simp only [decide_eq_true_eq] at hamp
  exact ⟨hb.1, hb.2.1, hamp, hb.2.2⟩

/-- C3 (amended) witness: the theorem applied to the one-cell grid. -/
theorem get_2D_peaks_pair_shape_witness :
    (0 : Nat) < oneCellGrid.rows ∧ (0 : Nat) < oneCellGrid.cols ∧
      (0 : Rat) < oneCellGrid.val 0 0 ∧ detectedPeaks oneCellGrid 0 0 = true :=
  get_2D_peaks_pair_shape oneCellGrid 0 (0, 0)
    (by rw [get_2D_peaks_oneCellGrid]; exact List.mem_singleton.mpr rfl)

end Audalign
